import Mathlib

/-!
Shallow embedding of the mpv IPC client (src/index.ts).

The program is a single-threaded, event-driven session object.  We model its
mutable closure state (`requestId`, `observeId`, the `requests` Map, the
`queue` array, the `observers` Map, the emitted events, the socket write
trace, and the promise outcomes) as an explicit `State` record, and each of
the source functions (`command`, `write`, `ready`, `handle`, `data`,
`observe`, `unobserve`, `end`, `start`'s synchronous prefix, `connect`'s
retry loop, and the argument merging at the top of `Mpv`) as a pure state
transformer translated line by line from the source.

JavaScript `Map`s are modelled as insertion-ordered association lists with
the `Map.prototype` operations (`has`/`get`/`set`/`delete`).  Promise
resolution is modelled by recording, per request id, the outcome the
resolver/rejecter was eventually called with; callbacks are identified by
numeric tokens and an invocation is recorded in a trace.  A thrown JS
exception is modelled with `Except`.
-/

namespace MpvModel

/-- The `MPV_STATUS` enum of the source (values are the strings
`"stopped" | "starting" | "started" | "errored"`). -/
inductive MPV_STATUS
  | stopped
  | starting
  | STARTED
  | ERRORED
deriving DecidableEq, Repr

/-- JSON-ish values appearing as command arguments and reply payloads
(`undef` models JavaScript `undefined`, which `command` filters out before
serializing). -/
inductive Val
  | null
  | undef
  | bool (b : Bool)
  | num (n : Int)
  | str (s : String)
deriving DecidableEq, Repr

/-- `Map.prototype.has` on an insertion-ordered association list. -/
def jsMapHas {α β : Type} [DecidableEq α] : List (α × β) → α → Bool
  | [], _ => false
  | p :: rest, k => decide (p.1 = k) || jsMapHas rest k

/-- `Map.prototype.get` (returns `none` for a missing key, i.e. `undefined`). -/
def jsMapGet {α β : Type} [DecidableEq α] : List (α × β) → α → Option β
  | [], _ => none
  | p :: rest, k => if p.1 = k then some p.2 else jsMapGet rest k

/-- `Map.prototype.set`: replaces the entry in place if the key is present
(keys of a real `Map` are unique), else appends. -/
def jsMapSet {α β : Type} [DecidableEq α] : List (α × β) → α → β → List (α × β)
  | [], k, v => [(k, v)]
  | p :: rest, k, v => if p.1 = k then (k, v) :: rest else p :: jsMapSet rest k v

/-- `Map.prototype.delete` (removes the unique entry with that key, if any). -/
def jsMapDelete {α β : Type} [DecidableEq α] : List (α × β) → α → List (α × β)
  | [], _ => []
  | p :: rest, k => if p.1 = k then rest else p :: jsMapDelete rest k

/-- The `Request` record of the source: id, original args (for diagnostics),
and the serialized wire message.  The resolve/reject callbacks are modelled
by the session-level `outcomes` trace keyed by `id`. -/
structure Request where
  id : Nat
  args : List Val
  message : String
deriving DecidableEq, Repr

/-- How a request's promise was settled. -/
inductive Outcome
  | resolved (v : Val)
  | rejected (e : String)
deriving DecidableEq, Repr

/-- An Observation Registry entry, as stored by `observers.set(x, { id, fns })`:
the subscription id and the `Set` of callbacks (callbacks are numeric tokens;
a JS `Set` keeps insertion order and has no duplicates). -/
structure Entry where
  id : Nat
  fns : List Nat
deriving DecidableEq, Repr

/-- The subprocess handle, for `end`/`kill`: whether `kill()` was requested,
whether `removeAllListeners()` was called, and whether `unref()` was called. -/
structure Proc where
  killed : Bool
  listenersRemoved : Bool
  unrefed : Bool
deriving DecidableEq, Repr

/-- The mutable closure state of one `Mpv(...)` session.

`observersMap` holds the entries written with `observers.set(...)`, while
`observersProps` holds the plain property assignments `observers[x] = promise`
performed by `observe` — the source mixes both access styles on the same
`Map` object, and they are distinct storages (a property assignment is not
visible to `Map.prototype.has/get`).  A stored promise is identified by the
request id of the underlying `observe_property` command; `observeConts`
records the not-yet-run `.then` continuations of those commands. -/
structure State where
  requestId : Nat
  observeId : Nat
  requests : List (Nat × Request)
  queue : List Request
  written : List String
  outcomes : List (Nat × Outcome)
  observersMap : List (String × Entry)
  observersProps : List (String × Nat)
  observeConts : List (Nat × String × Nat × Nat)
  emitted : List (String × String)
  callbackCalls : List (Nat × Val)
  socketOpen : Bool
  status : MPV_STATUS
  processHandle : Option Proc
  spawnCount : Nat
deriving DecidableEq, Repr

/-- `JSON.stringify` of a single command argument (after `undefined` entries
were filtered out; `undefined` inside an array would stringify as `null`). -/
def serializeVal : Val → String
  | Val.null => "null"
  | Val.undef => "null"
  | Val.bool b => if b then "true" else "false"
  | Val.num n => toString n
  | Val.str s => "\"" ++ s ++ "\""

/-- The wire message built by `command`:
`JSON.stringify(\x7b request_id: id, command: args.filter(x => x !== undefined) \x7d) + "\n"`. -/
def serializeRequest (id : Nat) (args : List Val) : String :=
  "\x7b\"request_id\":" ++ toString id ++ ",\"command\":[" ++
    String.intercalate "," ((args.filter (fun v => !decide (v = Val.undef))).map serializeVal) ++
    "]\x7d\n"

/-- The `Request` object that `command` constructs for a given id and args. -/
def mkRequest (id : Nat) (args : List Val) : Request :=
  { id := id, args := args, message := serializeRequest id args }

/-- `write(request)`: `socket.write(request.message); requests.set(request.id, request)`. -/
def write (s : State) (r : Request) : State :=
  { s with written := s.written ++ [r.message],
           requests := jsMapSet s.requests r.id r }

/-- `command(...args)`: allocates `++requestId`, builds the request, and either
writes it immediately (`socket.readyState === "open"`) or pushes it onto the
queue.  Returns the new state and the id of the promise handed to the caller. -/
def command (s : State) (args : List Val) : State × Nat :=
  let id := s.requestId + 1
  let r := mkRequest id args
  let s1 : State := { s with requestId := id }
  if s1.socketOpen then (write s1 r, id) else ({ s1 with queue := s1.queue ++ [r] }, id)

/-- `ready()`:
`observers.forEach(({id}, x) => command("observe_property", id, x));`
`requests.forEach(write); queue.forEach(write); queue = [];`
Each phase iterates the container as it stands when the phase starts; `write`
never changes the Map's key set for a key already present and never touches
`queue`, so snapshot folds coincide with the live JS iteration. -/
def ready (s : State) : State :=
  let s1 := s.observersMap.foldl
    (fun st kv => (command st [Val.str "observe_property", Val.num kv.2.id, Val.str kv.1]).1) s
  let s2 := s1.requests.foldl (fun st kv => write st kv.2) s1
  let s3 := s2.queue.foldl (fun st r => write st r) s2
  { s3 with queue := [] }

/-- A parsed inbound frame, as the duck-typed object `handle` inspects:
missing fields are `none` (JavaScript `undefined`). -/
structure InMsg where
  event : Option String := none
  name : Option String := none
  data : Val := Val.undef
  request_id : Option Nat := none
  error : Option String := none
deriving DecidableEq, Repr

/-- JS truthiness of the `x.event` field (`undefined` and `""` are falsy). -/
def truthy : Option String → Bool
  | none => false
  | some s => !s.data.isEmpty

/-- One element of `request.args.join(" ")` (JS `Array.prototype.join` renders
`null`/`undefined` as the empty string). -/
def joinVal : Val → String
  | Val.null => ""
  | Val.undef => ""
  | Val.bool b => if b then "true" else "false"
  | Val.num n => toString n
  | Val.str s => s

/-- `request.args.join(" ")`. -/
def joinArgs (args : List Val) : String :=
  String.intercalate " " (args.map joinVal)

/-- String coercion of `x.error` as used in string concatenation
(`undefined` coerces to `"undefined"`). -/
def errText : Option String → String
  | some e => e
  | none => "undefined"

/-- `handle(x)`: route one parsed inbound frame.
Events go to the Observation Registry (by `name`) or are re-emitted;
otherwise a reply is matched against the pending-request map by
`request_id` — on a match the request is removed and its promise resolved
(`error === "success"`) or rejected; an unmatched non-success reply is
emitted as a generic error. -/
def handle (s : State) (m : InMsg) : State :=
  if truthy m.event then
    if m.event = some "property-change" then
      match m.name with
      | some n =>
        match jsMapGet s.observersMap n with
        | some entry =>
          { s with callbackCalls := s.callbackCalls ++ entry.fns.map (fun f => (f, m.data)) }
        | none => s
      | none => s
    else
      { s with emitted := s.emitted ++ [(m.event.getD "", "")] }
  else
    match m.request_id with
    | none =>
      if m.error = some "success" then s
      else { s with emitted := s.emitted ++ [("error", errText m.error)] }
    | some rid =>
      match jsMapGet s.requests rid with
      | none =>
        if m.error = some "success" then s
        else { s with emitted := s.emitted ++ [("error", errText m.error)] }
      | some req =>
        let s1 : State := { s with requests := jsMapDelete s.requests rid }
        if m.error = some "success" then
          { s1 with outcomes := s1.outcomes ++ [(rid, Outcome.resolved m.data)] }
        else
          { s1 with outcomes := s1.outcomes ++
              [(rid, Outcome.rejected
                  (joinArgs req.args ++ " - failed with error: " ++ errText m.error))] }

/-- Split a character sequence at every `'\n'` (the separators are consumed). -/
def splitNL : List Char → List (List Char)
  | [] => [[]]
  | c :: rest =>
    let r := splitNL rest
    if c = '\n' then [] :: r
    else (c :: r.headD []) :: r.tail

/-- Remove one trailing `'\r'`, if present (the `\r?` of the split pattern). -/
def stripTrailingCR (seg : List Char) : List Char :=
  match seg.reverse with
  | '\r' :: rest => rest.reverse
  | _ => seg

/-- `x.split(/\r?\n/g)`: split on `"\n"`, then strip one trailing `"\r"` from
each segment. -/
def splitInbound (s : String) : List String :=
  (splitNL s.data).map (fun seg => String.mk (stripTrailingCR seg))

/-- The `.filter(x => x)` step: drop empty (falsy) segments. -/
def cleanSegs (chunk : String) : List String :=
  (splitInbound chunk).filter (fun l => !l.data.isEmpty)

/-- The whitespace class removed by `String.prototype.trim` (the common
ASCII members). -/
def isWSChar (c : Char) : Bool :=
  c = ' ' || c = '\t' || c = '\n' || c = '\r' || c = '\x0b' || c = '\x0c'

/-- `x.trim()`: drop leading and trailing whitespace. -/
def trimStr (s : String) : String :=
  String.mk (((s.data.dropWhile isWSChar).reverse.dropWhile isWSChar).reverse)

/-- The `.map(x => JSON.parse(x.trim()))` step.  `JSON.parse` is a platform
builtin (an external collaborator), taken as a parameter; a `.error` is a
thrown `SyntaxError`.  JS `Array.prototype.map` evaluates left to right and a
throw aborts the whole map, so the first failing segment's error is the
result and no later segment is parsed. -/
def parseAll (parse : String → Except String InMsg) : List String → Except String (List InMsg)
  | [] => Except.ok []
  | l :: rest =>
    match parse (trimStr l) with
    | Except.error e => Except.error e
    | Except.ok m =>
      match parseAll parse rest with
      | Except.error e => Except.error e
      | Except.ok ms => Except.ok (m :: ms)

/-- `data(x)`: split the chunk, drop empty segments, parse every remaining
segment (the `.map`), then dispatch each parsed object (the `.forEach`).
There is no try/catch: a parse failure propagates out of the listener, and
since the `.map` runs to completion before the `.forEach` starts, no frame
of the chunk — not even one before the malformed line — is dispatched. -/
def dataFn (parse : String → Except String InMsg) (s : State) (chunk : String) :
    Except String State :=
  match parseAll parse (cleanSegs chunk) with
  | Except.error e => Except.error e
  | Except.ok ms => Except.ok (ms.foldl handle s)

/-- `observe(x, fn)`, synchronous part.
If `observers.has(x)` (a `Map` lookup, which only sees entries written by
`observers.set` in the command's `.then`) the call suspends on
`await observers[x]` with no synchronous state change (see `observeThen` for
the continuation's fate).  Otherwise it allocates `++observeId`, issues
`command("observe_property", id, x)`, and stores the resulting promise as a
plain property `observers[x] = ...` (NOT a `Map` entry), registering the
`.then` continuation that will `observers.set(x, \x7b id, fns: new Set([fn]) \x7d)`. -/
def observe (s : State) (x : String) (fn : Nat) : State :=
  if jsMapHas s.observersMap x then
    s
  else
    let oid := s.observeId + 1
    let s1 : State := { s with observeId := oid }
    let p := command s1 [Val.str "observe_property", Val.num oid, Val.str x]
    { p.1 with observersProps := jsMapSet p.1.observersProps x p.2,
               observeConts := p.1.observeConts ++ [(p.2, x, oid, fn)] }

/-- The `.then` continuation of the `observe_property` command issued by
`observe`: once the underlying request has resolved, it runs
`observers.set(x, \x7b id, fns: new Set([fn]) \x7d)` and yields the command's
result as the promise's value. -/
def observeThen (s : State) (rid : Nat) : State :=
  match s.observeConts.find? (fun c => decide (c.1 = rid)) with
  | none => s
  | some c =>
    if s.outcomes.any (fun p => decide (p.1 = rid) &&
        match p.2 with | Outcome.resolved _ => true | Outcome.rejected _ => false) then
      { s with observersMap := jsMapSet s.observersMap c.2.1 { id := c.2.2.1, fns := [c.2.2.2] },
               observeConts := s.observeConts.filter (fun c2 => !decide (c2.1 = rid)) }
    else s

/-- `unobserve(x, fn)`:
`const observer = observers.get(x); observer.fns.delete(fn);`
`if (observer.fns.size === 0) \x7b observers.delete(x); mpv.command("unobserve_property", observer.id).catch(...) \x7d`.
When `observers.get(x)` is `undefined` (the entry was already deleted),
`observer.fns` throws a `TypeError`, modelled as `Except.error`. -/
def unobserve (s : State) (x : String) (fn : Nat) : Except String State :=
  match jsMapGet s.observersMap x with
  | none => Except.error "TypeError: Cannot read properties of undefined (reading fns)"
  | some entry =>
    if (entry.fns.erase fn).isEmpty then
      Except.ok (command { s with observersMap := jsMapDelete s.observersMap x }
        [Val.str "unobserve_property", Val.num entry.id]).1
    else
      Except.ok { s with observersMap := jsMapSet s.observersMap x { entry with fns := entry.fns.erase fn } }

/-- `end()`: a no-op when there is no subprocess; otherwise
`removeAllListeners()`, `kill()` (which marks the process killed if it was
not already), and `unref()`.  It touches nothing else — in particular it
never looks at `requests`, `queue` or any promise. -/
def endFn (s : State) : State :=
  match s.processHandle with
  | none => s
  | some p =>
    let p1 : Proc := { p with listenersRemoved := true, killed := true, unrefed := true }
    { s with processHandle := some p1 }

/-- The synchronous prefix of `start(emit?)`:
`if (mpv.status !== "stopped") return;` then `mpv.status = starting` and the
spawn-and-connect work begins (counted by `spawnCount`).  The returned flag
says whether the guard was passed, i.e. whether any spawn work happens at
all — everything after the guard (spawn, connect, ready, emitting
"restarted") is only reached when the flag is `true`. -/
def startSync (s : State) : State × Bool :=
  if s.status ≠ MPV_STATUS.stopped then (s, false)
  else ({ s with status := MPV_STATUS.starting, spawnCount := s.spawnCount + 1 }, true)

/-- The `close` listener installed by `start` once the session is started:
`mpv.process.on("close", () => \x7b mpv.status = MPV_STATUS.STARTED; start(true).catch(e => mpv.emit("error", e)) \x7d)`. -/
def onProcessClose (s : State) : State × Bool :=
  startSync { s with status := MPV_STATUS.STARTED }

/-- One connection attempt as the `connect` closure observes it: either the
socket reaches `"ready"`, or it errors (`errored` stores the last error) and
then closes at some elapsed time (ms since `connectStart`). -/
inductive Attempt
  | succeed
  | failAt (err : Option String) (elapsed : Nat)
deriving DecidableEq, Repr

/-- How the `connect` promise settles. -/
inductive ConnectResult
  | connected
  | rejected (e : String)
deriving DecidableEq, Repr

/-- The fixed retry delay of `setTimeout(() => socket.connect(socketPath), 20)`. -/
def connectRetryDelayMs : Nat := 20

/-- The default of the `timeout = 5000` parameter of `connect`. -/
def connectDefaultTimeoutMs : Nat := 5000

/-- `error = e` semantics of the `errored` listener: a new error event
overwrites the stored one; a close without an error event keeps it. -/
def lastErrOf (err le : Option String) : Option String :=
  match err with
  | some e => some e
  | none => le

/-- The `connect` retry loop: on each `close`, if the elapsed time exceeds
the timeout, reject with the stored error (or a generic `"Timed out"`),
else schedule a reconnect after `connectRetryDelayMs`.  Returns the promise's
settlement (`none` while still pending after the given attempts) and the
list of scheduled retry delays. -/
def connectLoop (timeout : Nat) (le : Option String) :
    List Attempt → Option ConnectResult × List Nat
  | [] => (none, [])
  | Attempt.succeed :: _ => (some ConnectResult.connected, [])
  | Attempt.failAt err t :: rest =>
    let le1 := lastErrOf err le
    if t > timeout then
      (some (ConnectResult.rejected (match le1 with | some e => e | none => "Timed out")), [])
    else
      let r := connectLoop timeout le1 rest
      (r.1, connectRetryDelayMs :: r.2)

/-- `connect()` with its defaults (`timeout = 5000`, no error seen yet). -/
def connectFn (attempts : List Attempt) : Option ConnectResult × List Nat :=
  connectLoop connectDefaultTimeoutMs none attempts

/-- A heap of JS arrays, to make mutation (or its absence) observable:
`Mpv`'s caller passes a reference into this store. -/
structure Store where
  arrays : List (List String)
deriving DecidableEq, Repr

/-- Read an array by reference (out-of-range reads yield an empty array). -/
def getArr (st : Store) (r : Nat) : List String :=
  st.arrays.getD r []

/-- Overwrite an array in place. -/
def setArr (st : Store) (r : Nat) (v : List String) : Store :=
  { arrays := st.arrays.set r v }

/-- Allocate a fresh array (e.g. the result of `.slice(0)`). -/
def allocArr (st : Store) (v : List String) : Store × Nat :=
  ({ arrays := st.arrays ++ [v] }, st.arrays.length)

/-- `array.push(x)` on the array behind reference `r`. -/
def pushArr (st : Store) (r : Nat) (x : String) : Store :=
  setArr st r (getArr st r ++ [x])

/-- `const socketArg = "--input-ipc-server"`. -/
def socketArg : String := "--input-ipc-server"

/-- `randomPath()` for the non-win32 branch; the `Math.random()` suffix is a
parameter. -/
def randomPathArg (suffix : String) : String :=
  socketArg ++ "=" ++ "/tmp/mpvsocket" ++ suffix

/-- The `defaults` array of `Mpv`. -/
def defaultsFor (suffix : String) : List String :=
  [randomPathArg suffix,
   "--audio-fallback-to-null=yes",
   "--no-config",
   "--idle",
   "--msg-level=all=warn"]

/-- `x.startsWith(pre)`, computed on the character lists. -/
def strStartsWith (x pre : String) : Bool :=
  pre.data.isPrefixOf x.data

/-- `a.split("=")[0]`: the option key a default is deduplicated on (the
characters before the first `"="`). -/
def argKey (a : String) : String :=
  String.mk (a.data.takeWhile (fun c => !decide (c = '=')))

/-- The argument-merging prefix of `Mpv`:
`args = (args || []).slice(0);` then for each default
`args.some(x => x.startsWith(a.split("=")[0])) || args.push(a)`.
Takes the heap and the caller's array reference; returns the heap and the
reference to the (fresh) merged array. -/
def mergeArgs (st : Store) (callerRef : Nat) (suffix : String) : Store × Nat :=
  let p := allocArr st (getArr st callerRef)
  let st1 := (defaultsFor suffix).foldl
    (fun acc a =>
      if (getArr acc p.2).any (fun x => strStartsWith x (argKey a)) then acc
      else pushArr acc p.2 a) p.1
  (st1, p.2)

/-- The closure state of a freshly constructed session: counters at 0, all
containers empty, socket not yet connected, status `"stopped"`. -/
def initialState : State :=
  { requestId := 0, observeId := 0, requests := [], queue := [], written := [],
    outcomes := [], observersMap := [], observersProps := [], observeConts := [],
    emitted := [], callbackCalls := [], socketOpen := false,
    status := MPV_STATUS.stopped, processHandle := none, spawnCount := 0 }

/-- A sequence of `command(...)` calls; returns the final state and the list
of request ids handed back to the callers. -/
def runCommands (s : State) : List (List Val) → State × List Nat
  | [] => (s, [])
  | a :: rest =>
    let p := command s a
    let q := runCommands p.1 rest
    (q.1, p.2 :: q.2)

/-- The consecutive naturals `k+1, k+2, ..., k+n`. -/
def natsFrom (k : Nat) : Nat → List Nat
  | 0 => []
  | n + 1 => (k + 1) :: natsFrom (k + 1) n

/-- The requests a run of queued `command` calls builds, ids continuing
from `k`. -/
def builtReqs (k : Nat) : List (List Val) → List Request
  | [] => []
  | a :: rest => mkRequest (k + 1) a :: builtReqs (k + 1) rest

/-- The ids of every request not yet resolved or rejected and still owned by
the session: keys of the pending map plus ids of the outbound queue. -/
def inflightIds (s : State) : List Nat :=
  s.requests.map (fun p => p.1) ++ s.queue.map (fun r => r.id)

/-- The request-id invariant: in-flight ids are pairwise distinct, never
exceed the allocation counter, and every pending-map entry is keyed by its
request's own id. -/
def IdInv (s : State) : Prop :=
  (inflightIds s).Nodup ∧ (∀ i ∈ inflightIds s, i ≤ s.requestId) ∧
    ∀ p ∈ s.requests, p.2.id = p.1

/-- One event-loop step of the session: a `command` call, the `ready`
listener, dispatch of one inbound frame, an inbound chunk, a socket state
change, an `observe`/`unobserve` call, or `end`. -/
inductive Step
  | cmd (args : List Val)
  | readyStep
  | handleStep (m : InMsg)
  | dataStep (parse : String → Except String InMsg) (chunk : String)
  | setSocket (b : Bool)
  | observeStep (x : String) (fn : Nat)
  | observeThenStep (rid : Nat)
  | unobserveStep (x : String) (fn : Nat)
  | endStep

/-- Apply one step (a thrown exception leaves the state as the throw site
left it: `unobserve` throws before mutating anything, `data` throws after
parsing but before dispatching anything). -/
def applyStep (s : State) : Step → State
  | Step.cmd args => (command s args).1
  | Step.readyStep => ready s
  | Step.handleStep m => handle s m
  | Step.dataStep parse chunk =>
    match dataFn parse s chunk with
    | Except.error _ => s
    | Except.ok s1 => s1
  | Step.setSocket b => { s with socketOpen := b }
  | Step.observeStep x fn => observe s x fn
  | Step.observeThenStep rid => observeThen s rid
  | Step.unobserveStep x fn =>
    match unobserve s x fn with
    | Except.error _ => s
    | Except.ok s1 => s1
  | Step.endStep => endFn s

/-- Run a list of steps. -/
def runSteps (s : State) (steps : List Step) : State :=
  steps.foldl applyStep s

/-! Concrete session states used to evaluate the model at specific inputs. -/

/-- An in-flight pending request: written before a disconnect, reply never
arrived. -/
def c1r1 : Request := mkRequest 1 [Val.str "get_property", Val.str "volume"]

/-- A request composed while the connection was down, still in the Outbound
Queue. -/
def c1r2 : Request := mkRequest 2 [Val.str "loadfile", Val.str "file.mp4"]

/-- A reconnect-ready session: one in-flight pending request (id 1), one
queued request (id 2), no observers. -/
def c1s0 : State :=
  { initialState with requestId := 2, requests := [(1, c1r1)], queue := [c1r2],
                      socketOpen := true }

/-- The single pending request of the teardown scenario. -/
def c2req : Request := mkRequest 1 [Val.str "get_property", Val.str "volume"]

/-- A started session with one pending (unresolved, unrejected) request and a
live subprocess. -/
def c2s0 : State :=
  { initialState with requestId := 1, requests := [(1, c2req)], socketOpen := true,
                      status := MPV_STATUS.STARTED,
                      processHandle := some { killed := false, listenersRemoved := false, unrefed := false } }

/-- A session that has reached the started state. -/
def c3s0 : State :=
  { initialState with status := MPV_STATUS.STARTED, spawnCount := 1, socketOpen := true }

/-- An open-socket session before any `observe` call. -/
def c4s0 : State := { initialState with socketOpen := true }

/-- After `observe("volume", cb1)` (callback token 1), reply not yet arrived. -/
def c4s1 : State := observe c4s0 "volume" 1

/-- After a concurrent `observe("volume", cb2)` (callback token 2), still
before any reply. -/
def c4s2 : State := observe c4s1 "volume" 2

/-- A registry holding one observation on `"volume"` (subscription id 1) with
a single subscriber, callback token 7. -/
def c9s0 : State :=
  { initialState with observeId := 1,
                      observersMap := [("volume", { id := 1, fns := [7] })],
                      socketOpen := true }

/-- A registry whose `"volume"` entry has two subscribers, tokens 7 and 8. -/
def c9s2 : State :=
  { initialState with observeId := 1,
                      observersMap := [("volume", { id := 1, fns := [7, 8] })],
                      socketOpen := true }

/-- A stand-in instantiation of the `JSON.parse` parameter, used to evaluate
`data` at concrete inputs: the lines `"A"` and `"B"` are well-formed frames,
anything else throws a syntax error. -/
def demoParse : String → Except String InMsg := fun l =>
  if l = "A" then Except.ok { event := some "tick" }
  else if l = "B" then Except.ok { event := some "pause" }
  else Except.error "SyntaxError: Unexpected token"

/-! Association-list lemmas about the `Map.prototype` operations. -/

theorem jsMapHas_iff_mem {α β : Type} [DecidableEq α] (m : List (α × β)) (k : α) :
    jsMapHas m k = true ↔ k ∈ m.map (fun p => p.1) := by
  induction m with
  | nil => simp [jsMapHas]
  | cons p rest ih =>
    simp only [jsMapHas, Bool.or_eq_true, decide_eq_true_eq, ih, List.map_cons, List.mem_cons]
    exact or_congr_left eq_comm

theorem jsMapHas_eq_false {α β : Type} [DecidableEq α] {m : List (α × β)} {k : α}
    (h : k ∉ m.map (fun p => p.1)) : jsMapHas m k = false := by
  cases hb : jsMapHas m k with
  | false => rfl
  | true => exact absurd ((jsMapHas_iff_mem m k).mp hb) h

theorem jsMapSet_of_not_has {α β : Type} [DecidableEq α] {m : List (α × β)} {k : α} (v : β)
    (h : jsMapHas m k = false) : jsMapSet m k v = m ++ [(k, v)] := by
  induction m with
  | nil => rfl
  | cons p rest ih =>
    simp only [jsMapHas, Bool.or_eq_false_iff, decide_eq_false_iff_not] at h
    simp [jsMapSet, h.1, ih h.2]

theorem jsMapGet_of_not_mem {α β : Type} [DecidableEq α] {m : List (α × β)} {k : α}
    (h : k ∉ m.map (fun p => p.1)) : jsMapGet m k = none := by
  induction m with
  | nil => rfl
  | cons p rest ih =>
    simp only [List.map_cons, List.mem_cons, not_or] at h
    have h1 : ¬ p.1 = k := fun e => h.1 e.symm
    simp [jsMapGet, h1, ih h.2]

theorem jsMapGet_set_self {α β : Type} [DecidableEq α] (m : List (α × β)) (k : α) (v : β) :
    jsMapGet (jsMapSet m k v) k = some v := by
  induction m with
  | nil => simp [jsMapSet, jsMapGet]
  | cons p rest ih =>
    by_cases hp : p.1 = k
    · simp [jsMapSet, hp, jsMapGet]
    · simp [jsMapSet, hp, jsMapGet, ih]

theorem jsMapGet_set_ne {α β : Type} [DecidableEq α] (m : List (α × β)) (k : α) (v : β)
    (k2 : α) (h : k2 ≠ k) : jsMapGet (jsMapSet m k v) k2 = jsMapGet m k2 := by
  have hk : ¬ k = k2 := fun e => h e.symm
  induction m with
  | nil => simp [jsMapSet, jsMapGet, hk]
  | cons p rest ih =>
    by_cases hp : p.1 = k
    · have hp2 : ¬ p.1 = k2 := fun e => hk (hp ▸ e)
      simp [jsMapSet, hp, jsMapGet, hk, hp2]
    · by_cases hq : p.1 = k2
      · simp [jsMapSet, hp, jsMapGet, hq, h]
      · simp [jsMapSet, hp, jsMapGet, hq, ih]

theorem jsMapSet_eq_of_get {α β : Type} [DecidableEq α] {m : List (α × β)} {k : α} {v : β}
    (h : jsMapGet m k = some v) : jsMapSet m k v = m := by
  induction m with
  | nil => simp [jsMapGet] at h
  | cons p rest ih =>
    obtain ⟨pa, pb⟩ := p
    by_cases hp : pa = k
    · simp only [jsMapGet, hp, if_pos] at h
      simp only [Option.some.injEq] at h
      simp [jsMapSet, hp, h]
    · simp only [jsMapGet, hp, if_neg, ite_false] at h
      simp [jsMapSet, hp, ih h]

theorem jsMapSet_set_same {α β : Type} [DecidableEq α] (m : List (α × β)) (k : α) (v : β) :
    jsMapSet (jsMapSet m k v) k v = jsMapSet m k v :=
  jsMapSet_eq_of_get (jsMapGet_set_self m k v)

theorem jsMapGet_append_right {α β : Type} [DecidableEq α] (m : List (α × β)) (k : α) (v : β)
    (h : k ∉ m.map (fun p => p.1)) : jsMapGet (m ++ [(k, v)]) k = some v := by
  induction m with
  | nil => simp [jsMapGet]
  | cons p rest ih =>
    simp only [List.map_cons, List.mem_cons, not_or] at h
    have h1 : ¬ p.1 = k := fun e => h.1 e.symm
    simp only [List.cons_append, jsMapGet, h1, ite_false]
    exact ih h.2

theorem jsMapGet_of_mem_nodup {α β : Type} [DecidableEq α] {m : List (α × β)} {k : α} {v : β}
    (hnd : (m.map (fun p => p.1)).Nodup) (hm : (k, v) ∈ m) : jsMapGet m k = some v := by
  induction m with
  | nil => simp at hm
  | cons p rest ih =>
    simp only [List.map_cons, List.nodup_cons] at hnd
    rcases List.mem_cons.mp hm with h | h
    · simp [jsMapGet, ← h]
    · have hk : k ∈ rest.map (fun p => p.1) :=
        List.mem_map.mpr ⟨(k, v), h, rfl⟩
      have hp : ¬ p.1 = k := fun e => hnd.1 (e ▸ hk)
      simp [jsMapGet, hp, ih hnd.2 h]

theorem jsMapDelete_keys_sublist {α β : Type} [DecidableEq α] (m : List (α × β)) (k : α) :
    ((jsMapDelete m k).map (fun p => p.1)).Sublist (m.map (fun p => p.1)) := by
  induction m with
  | nil => simp [jsMapDelete]
  | cons p rest ih =>
    by_cases hp : p.1 = k
    · simp only [jsMapDelete, hp, ite_true, List.map_cons]
      exact (List.sublist_cons_self _ _)
    · simp only [jsMapDelete, hp, ite_false, List.map_cons]
      exact ih.cons₂ _

theorem jsMapDelete_mem {α β : Type} [DecidableEq α] {m : List (α × β)} {k : α} {p : α × β}
    (h : p ∈ jsMapDelete m k) : p ∈ m := by
  induction m with
  | nil => simp [jsMapDelete] at h
  | cons q rest ih =>
    by_cases hq : q.1 = k
    · simp only [jsMapDelete, hq, ite_true] at h
      exact List.mem_cons_of_mem _ h
    · simp only [jsMapDelete, hq, ite_false] at h
      rcases List.mem_cons.mp h with h1 | h1
      · exact h1 ▸ List.mem_cons_self _ _
      · exact List.mem_cons_of_mem _ (ih h1)

/-! Basic facts about `command` and `write`. -/

theorem command_snd (s : State) (args : List Val) :
    (command s args).2 = s.requestId + 1 := by
  by_cases h : s.socketOpen <;> simp [command, h]

theorem command_open (s : State) (args : List Val) (h : s.socketOpen = true) :
    (command s args).1 =
      write { s with requestId := s.requestId + 1 } (mkRequest (s.requestId + 1) args) := by
  simp [command, h]

theorem command_closed (s : State) (args : List Val) (h : s.socketOpen = false) :
    (command s args).1 =
      { s with requestId := s.requestId + 1,
               queue := s.queue ++ [mkRequest (s.requestId + 1) args] } := by
  simp [command, h]

theorem command_fields (s : State) (args : List Val) :
    (command s args).1.requestId = s.requestId + 1 ∧
    (command s args).1.socketOpen = s.socketOpen ∧
    (command s args).1.observersMap = s.observersMap ∧
    (command s args).1.observersProps = s.observersProps ∧
    (command s args).1.outcomes = s.outcomes ∧
    (command s args).1.status = s.status ∧
    (command s args).1.observeId = s.observeId ∧
    (command s args).1.processHandle = s.processHandle := by
  by_cases h : s.socketOpen <;> simp [command, write, h]

/-! Preservation of the request-id invariant. -/

theorem IdInv_command (s : State) (args : List Val) (h : IdInv s) :
    IdInv (command s args).1 := by
  obtain ⟨hnd, hle, hids⟩ := h
  have hfresh : s.requestId + 1 ∉ inflightIds s := fun hm => by
    have := hle _ hm; omega
  have hkeys : s.requestId + 1 ∉ s.requests.map (fun p => p.1) :=
    fun hm => hfresh (List.mem_append_left _ hm)
  by_cases hso : s.socketOpen
  · rw [command_open s args hso]
    have hset : jsMapSet s.requests (s.requestId + 1) (mkRequest (s.requestId + 1) args) =
        s.requests ++ [(s.requestId + 1, mkRequest (s.requestId + 1) args)] :=
      jsMapSet_of_not_has _ (jsMapHas_eq_false hkeys)
    have hreq : (write { s with requestId := s.requestId + 1 }
        (mkRequest (s.requestId + 1) args)).requests =
        s.requests ++ [(s.requestId + 1, mkRequest (s.requestId + 1) args)] := by
      simp [write, mkRequest] at hset ⊢
      exact hset
    have hinf : inflightIds (write { s with requestId := s.requestId + 1 }
        (mkRequest (s.requestId + 1) args)) =
        s.requests.map (fun p => p.1) ++
          ((s.requestId + 1) :: s.queue.map (fun r => r.id)) := by
      have hid : (mkRequest (s.requestId + 1) args).id = s.requestId + 1 := rfl
      simp only [inflightIds, write, hid, hset, List.map_append]
      rw [List.append_assoc]
      rfl
    have hperm : (inflightIds (write { s with requestId := s.requestId + 1 }
        (mkRequest (s.requestId + 1) args))).Perm
        ((s.requestId + 1) :: inflightIds s) := by
      rw [hinf]
      exact List.perm_middle
    refine ⟨?_, ?_, ?_⟩
    · exact hperm.symm.nodup (List.nodup_cons.mpr ⟨hfresh, hnd⟩)
    · intro i hi
      have hi2 : i ∈ (s.requestId + 1) :: inflightIds s := hperm.subset hi
      have hri : (write { s with requestId := s.requestId + 1 }
          (mkRequest (s.requestId + 1) args)).requestId = s.requestId + 1 := rfl
      rw [hri]
      rcases List.mem_cons.mp hi2 with h1 | h1
      · omega
      · have := hle _ h1; omega
    · intro p hp
      rw [hreq] at hp
      rcases List.mem_append.mp hp with h1 | h1
      · exact hids p h1
      · rcases List.mem_singleton.mp h1 with rfl
        simp [mkRequest]
  · have hso2 : s.socketOpen = false := by
      cases hb : s.socketOpen
      · rfl
      · exact absurd hb hso
    rw [command_closed s args hso2]
    have hinf : inflightIds { s with requestId := s.requestId + 1, queue := s.queue ++ [mkRequest (s.requestId + 1) args] } = inflightIds s ++ [s.requestId + 1] := by
      simp [inflightIds, mkRequest, List.append_assoc]
    have hperm : (inflightIds { s with requestId := s.requestId + 1, queue := s.queue ++ [mkRequest (s.requestId + 1) args] }).Perm ((s.requestId + 1) :: inflightIds s) := by
      rw [hinf]
      exact List.perm_append_comm
    refine ⟨?_, ?_, ?_⟩
    · exact hperm.symm.nodup (List.nodup_cons.mpr ⟨hfresh, hnd⟩)
    · intro i hi
      have hi2 : i ∈ (s.requestId + 1) :: inflightIds s := hperm.subset hi
      rcases List.mem_cons.mp hi2 with h1 | h1
      · simp [h1]
      · have := hle _ h1
        simp
        omega
    · intro p hp
      exact hids p hp

theorem handle_cases (s : State) (m : InMsg) :
    handle s m = s ∨
    (∃ e, handle s m = { s with emitted := s.emitted ++ [e] }) ∨
    (∃ c, handle s m = { s with callbackCalls := s.callbackCalls ++ c }) ∨
    (∃ rid o, handle s m =
      { s with requests := jsMapDelete s.requests rid,
               outcomes := s.outcomes ++ [(rid, o)] }) := by
  unfold handle
  split
  · split
    · split
      · split
        · exact Or.inr (Or.inr (Or.inl ⟨_, rfl⟩))
        · exact Or.inl rfl
      · exact Or.inl rfl
    · exact Or.inr (Or.inl ⟨_, rfl⟩)
  · split
    · split
      · exact Or.inl rfl
      · exact Or.inr (Or.inl ⟨_, rfl⟩)
    · split
      · split
        · exact Or.inl rfl
        · exact Or.inr (Or.inl ⟨_, rfl⟩)
      · split
        · exact Or.inr (Or.inr (Or.inr ⟨_, _, rfl⟩))
        · exact Or.inr (Or.inr (Or.inr ⟨_, _, rfl⟩))

theorem IdInv_handle (s : State) (m : InMsg) (h : IdInv s) : IdInv (handle s m) := by
  obtain ⟨hnd, hle, hids⟩ := h
  rcases handle_cases s m with hs | ⟨e, he⟩ | ⟨c, hc⟩ | ⟨rid, o, hd⟩
  · rw [hs]; exact ⟨hnd, hle, hids⟩
  · rw [he]; exact ⟨hnd, hle, hids⟩
  · rw [hc]; exact ⟨hnd, hle, hids⟩
  · rw [hd]
    have hsub : (inflightIds { s with requests := jsMapDelete s.requests rid, outcomes := s.outcomes ++ [(rid, o)] }).Sublist (inflightIds s) := by
      simp only [inflightIds]
      exact (jsMapDelete_keys_sublist _ _).append_right _
    exact ⟨hnd.sublist hsub, fun i hi => hle i (hsub.subset hi),
      fun p hp => hids p (jsMapDelete_mem hp)⟩

theorem jsMapGet_append_singleton_ne {α β : Type} [DecidableEq α] (m : List (α × β)) (k0 : α)
    (v : β) (k : α) (h : k ≠ k0) : jsMapGet (m ++ [(k0, v)]) k = jsMapGet m k := by
  have h0 : ¬ k0 = k := fun e => h e.symm
  induction m with
  | nil => simp [jsMapGet, h0]
  | cons p rest ih => by_cases hp : p.1 = k <;> simp [jsMapGet, hp, ih]

theorem write_append_eq (s : State) (r : Request)
    (h : r.id ∉ s.requests.map (fun p => p.1)) :
    write s r = { s with written := s.written ++ [r.message], requests := s.requests ++ [(r.id, r)] } := by
  simp only [write, jsMapSet_of_not_has _ (jsMapHas_eq_false h)]

/-- Re-writing entries that are already in the pending map (the
`requests.forEach(write)` phase of `ready`) only appends to the write trace:
every `requests.set` stores the value that is already there. -/
theorem foldl_write_mem (L : List (Nat × Request)) :
    ∀ s : State, (∀ kv ∈ L, jsMapGet s.requests kv.2.id = some kv.2) →
    L.foldl (fun st kv => write st kv.2) s
      = { s with written := s.written ++ L.map (fun kv => kv.2.message) } := by
  induction L with
  | nil =>
    intro s _
    simp
  | cons kv rest ih =>
    intro s h
    have h0 := h kv (List.mem_cons_self _ _)
    have hw : write s kv.2 = { s with written := s.written ++ [kv.2.message] } := by
      simp only [write, jsMapSet_eq_of_get h0]
    rw [List.foldl_cons, hw]
    rw [ih { s with written := s.written ++ [kv.2.message] } (fun kv2 h2 => h kv2 (List.mem_cons_of_mem _ h2))]
    simp [List.append_assoc]

/-- Draining the queue (the `queue.forEach(write)` phase of `ready`): writes
every queued request's message in order and appends each entry to the pending
map; nothing else changes, and old keys keep their values. -/
theorem foldl_write_queue (q : List Request) :
    ∀ s : State, (s.requests.map (fun p => p.1) ++ q.map (fun r => r.id)).Nodup →
    (q.foldl (fun st r => write st r) s).requests.map (fun p => p.1)
        = s.requests.map (fun p => p.1) ++ q.map (fun r => r.id) ∧
    (q.foldl (fun st r => write st r) s).written = s.written ++ q.map (fun r => r.message) ∧
    (q.foldl (fun st r => write st r) s).queue = s.queue ∧
    (q.foldl (fun st r => write st r) s).requestId = s.requestId ∧
    (q.foldl (fun st r => write st r) s).socketOpen = s.socketOpen ∧
    (q.foldl (fun st r => write st r) s).observersMap = s.observersMap ∧
    (q.foldl (fun st r => write st r) s).outcomes = s.outcomes ∧
    (∀ p ∈ (q.foldl (fun st r => write st r) s).requests,
        p ∈ s.requests ∨ p ∈ q.map (fun r => (r.id, r))) ∧
    (∀ k, k ∉ q.map (fun r => r.id) →
        jsMapGet (q.foldl (fun st r => write st r) s).requests k = jsMapGet s.requests k) ∧
    (∀ r ∈ q, jsMapGet (q.foldl (fun st r => write st r) s).requests r.id = some r) := by
  induction q with
  | nil =>
    intro s _
    refine ⟨by simp, by simp, rfl, rfl, rfl, rfl, rfl, fun p hp => Or.inl hp,
      fun k _ => rfl, fun r hr => absurd hr (List.not_mem_nil r)⟩
  | cons r0 q1 ih =>
    intro s h
    obtain ⟨hk, hq, hdisj⟩ := List.nodup_append.mp h
    have hr0 : r0.id ∉ s.requests.map (fun p => p.1) := by
      intro hmem
      exact hdisj hmem (List.mem_cons_self _ _)
    have hq2 := List.nodup_cons.mp hq
    have hw := write_append_eq s r0 hr0
    have hnext : ((write s r0).requests.map (fun p => p.1) ++
        q1.map (fun r => r.id)).Nodup := by
      rw [hw]
      simp only [List.map_append, List.map_cons, List.append_assoc]
      simpa using h
    obtain ⟨i1, i2, i3, i4, i5, i6, i7, i8, i9, i10⟩ := ih (write s r0) hnext
    rw [List.foldl_cons]
    have hreq1 : (write s r0).requests = s.requests ++ [(r0.id, r0)] := by rw [hw]
    refine ⟨?_, ?_, ?_, ?_, ?_, ?_, ?_, ?_, ?_, ?_⟩
    · rw [i1, hreq1]
      simp [List.append_assoc]
    · rw [i2, hw]
      simp [List.append_assoc]
    · rw [i3, hw]
    · rw [i4, hw]
    · rw [i5, hw]
    · rw [i6, hw]
    · rw [i7, hw]
    · intro p hp
      rcases i8 p hp with h1 | h1
      · rw [hreq1] at h1
        rcases List.mem_append.mp h1 with h2 | h2
        · exact Or.inl h2
        · rcases List.mem_singleton.mp h2 with rfl
          exact Or.inr (List.mem_map.mpr ⟨r0, List.mem_cons_self _ _, rfl⟩)
      · rcases List.mem_map.mp h1 with ⟨r1, hr1, rfl⟩
        exact Or.inr (List.mem_map.mpr ⟨r1, List.mem_cons_of_mem _ hr1, rfl⟩)
    · intro k hkk
      simp only [List.map_cons, List.mem_cons, not_or] at hkk
      rw [i9 k hkk.2, hreq1, jsMapGet_append_singleton_ne _ _ _ _ hkk.1]
    · intro r hr
      rcases List.mem_cons.mp hr with rfl | hr1
      · rw [i9 r.id hq2.1, hreq1, jsMapGet_append_right _ _ _ hr0]
      · exact i10 r hr1

theorem foldl_obscmd_IdInv (L : List (String × Entry)) :
    ∀ s : State, IdInv s →
    IdInv (L.foldl (fun st kv =>
      (command st [Val.str "observe_property", Val.num kv.2.id, Val.str kv.1]).1) s) := by
  induction L with
  | nil => intro s h; exact h
  | cons kv rest ih => intro s h; exact ih _ (IdInv_command _ _ h)

theorem pending_get_of_IdInv {s : State} (h : IdInv s) :
    ∀ kv ∈ s.requests, jsMapGet s.requests kv.2.id = some kv.2 := by
  obtain ⟨hnd, _, hvals⟩ := h
  have hndk : (s.requests.map (fun p => p.1)).Nodup := by
    simp only [inflightIds] at hnd
    exact hnd.of_append_left
  intro kv hkv
  rw [hvals kv hkv]
  exact jsMapGet_of_mem_nodup hndk hkv

theorem IdInv_ready (s : State) (h : IdInv s) : IdInv (ready s) := by
  have h1 := foldl_obscmd_IdInv s.observersMap s h
  simp only [ready]
  generalize hG : (s.observersMap.foldl (fun st kv =>
    (command st [Val.str "observe_property", Val.num kv.2.id, Val.str kv.1]).1) s) = t
  rw [hG] at h1
  have h2 := foldl_write_mem t.requests t (pending_get_of_IdInv h1)
  rw [h2]
  obtain ⟨hnd1, hle1, hvals1⟩ := h1
  simp only [inflightIds] at hnd1
  obtain ⟨j1, j2, j3, j4, j5, j6, j7, j8, j9, j10⟩ :=
    foldl_write_queue t.queue
      { t with written := t.written ++ t.requests.map (fun kv => kv.2.message) } hnd1
  refine ⟨?_, ?_, ?_⟩
  · simp only [inflightIds, j1, List.map_nil, List.append_nil]
    exact hnd1
  · intro i hi
    simp only [inflightIds, j1, List.map_nil, List.append_nil] at hi
    have hi2 : i ∈ inflightIds t := by
      simp only [inflightIds]
      exact hi
    have := hle1 i hi2
    simpa [j4] using this
  · intro p hp
    rcases j8 p hp with h3 | h3
    · exact hvals1 p h3
    · rcases List.mem_map.mp h3 with ⟨r, _, rfl⟩
      rfl

theorem IdInv_foldl_handle (ms : List InMsg) :
    ∀ s : State, IdInv s → IdInv (ms.foldl handle s) := by
  induction ms with
  | nil => intro s h; exact h
  | cons m rest ih => intro s h; exact ih _ (IdInv_handle _ _ h)

theorem IdInv_observe (s : State) (x : String) (fn : Nat) (h : IdInv s) :
    IdInv (observe s x fn) := by
  unfold observe
  split
  · exact h
  · have h2 : IdInv (command { s with observeId := s.observeId + 1 }
        [Val.str "observe_property", Val.num (Int.ofNat (s.observeId + 1)), Val.str x]).1 :=
      IdInv_command _ _ h
    exact ⟨h2.1, h2.2.1, h2.2.2⟩

theorem unobserve_cases (s : State) (x : String) (fn : Nat) :
    unobserve s x fn =
        Except.error "TypeError: Cannot read properties of undefined (reading fns)" ∨
    (∃ entry, jsMapGet s.observersMap x = some entry ∧ (entry.fns.erase fn).isEmpty = true ∧
      unobserve s x fn = Except.ok (command { s with observersMap := jsMapDelete s.observersMap x } [Val.str "unobserve_property", Val.num entry.id]).1) ∨
    (∃ entry, jsMapGet s.observersMap x = some entry ∧ (entry.fns.erase fn).isEmpty = false ∧
      unobserve s x fn = Except.ok { s with observersMap := jsMapSet s.observersMap x { entry with fns := entry.fns.erase fn } }) := by
  unfold unobserve
  split
  · exact Or.inl rfl
  · rename_i entry heq
    split
    · rename_i hemp
      exact Or.inr (Or.inl ⟨entry, heq, hemp, rfl⟩)
    · rename_i hemp
      refine Or.inr (Or.inr ⟨entry, heq, ?_, rfl⟩)
      cases hb : (entry.fns.erase fn).isEmpty
      · rfl
      · exact absurd hb hemp

theorem IdInv_unobserveStep (s : State) (x : String) (fn : Nat) (h : IdInv s) :
    IdInv (match unobserve s x fn with
           | Except.error _ => s
           | Except.ok s1 => s1) := by
  rcases unobserve_cases s x fn with he | ⟨entry, _, _, he⟩ | ⟨entry, _, _, he⟩
  · rw [he]; exact h
  · rw [he]
    have h2 : IdInv (command { s with observersMap := jsMapDelete s.observersMap x }
        [Val.str "unobserve_property", Val.num (Int.ofNat entry.id)]).1 :=
      IdInv_command _ _ ⟨h.1, h.2.1, h.2.2⟩
    exact h2
  · rw [he]
    exact ⟨h.1, h.2.1, h.2.2⟩

theorem IdInv_observeThen (s : State) (rid : Nat) (h : IdInv s) :
    IdInv (observeThen s rid) := by
  unfold observeThen
  split
  · exact h
  · split
    · exact ⟨h.1, h.2.1, h.2.2⟩
    · exact h

theorem IdInv_endFn (s : State) (h : IdInv s) : IdInv (endFn s) := by
  unfold endFn
  split
  · exact h
  · exact ⟨h.1, h.2.1, h.2.2⟩

theorem IdInv_dataStep (parse : String → Except String InMsg) (chunk : String) (s : State)
    (h : IdInv s) :
    IdInv (match dataFn parse s chunk with
           | Except.error _ => s
           | Except.ok s1 => s1) := by
  unfold dataFn
  cases hp : parseAll parse (cleanSegs chunk) with
  | error e => exact h
  | ok ms => exact IdInv_foldl_handle ms s h

theorem IdInv_step (s : State) (step : Step) (h : IdInv s) : IdInv (applyStep s step) := by
  cases step with
  | cmd args => exact IdInv_command s args h
  | readyStep => exact IdInv_ready s h
  | handleStep m => exact IdInv_handle s m h
  | dataStep parse chunk => exact IdInv_dataStep parse chunk s h
  | setSocket b => exact ⟨h.1, h.2.1, h.2.2⟩
  | observeStep x fn => exact IdInv_observe s x fn h
  | observeThenStep rid => exact IdInv_observeThen s rid h
  | unobserveStep x fn => exact IdInv_unobserveStep s x fn h
  | endStep => exact IdInv_endFn s h

theorem IdInv_runSteps (steps : List Step) :
    ∀ s : State, IdInv s → IdInv (runSteps s steps) := by
  induction steps with
  | nil => intro s h; exact h
  | cons st rest ih => intro s h; exact ih _ (IdInv_step s st h)

theorem IdInv_initialState : IdInv initialState := by
  refine ⟨?_, ?_, ?_⟩ <;> simp [initialState, inflightIds]

/-! Request-id allocation along a run of `command` calls. -/

theorem runCommands_ids (argss : List (List Val)) :
    ∀ s : State, (runCommands s argss).2 = natsFrom s.requestId argss.length ∧
      (runCommands s argss).1.requestId = s.requestId + argss.length := by
  induction argss with
  | nil => intro s; exact ⟨rfl, rfl⟩
  | cons a rest ih =>
    intro s
    obtain ⟨ih1, ih2⟩ := ih (command s a).1
    constructor
    · show (command s a).2 :: (runCommands (command s a).1 rest).2 =
        natsFrom s.requestId (rest.length + 1)
      rw [command_snd, ih1, (command_fields s a).1]
      rfl
    · show (runCommands (command s a).1 rest).1.requestId = s.requestId + (rest.length + 1)
      rw [ih2, (command_fields s a).1]
      omega

theorem natsFrom_chain : ∀ (n k : Nat), List.Chain' (· < ·) (natsFrom k n) := by
  intro n
  induction n with
  | zero => intro k; exact List.chain'_nil
  | succ n ih =>
    intro k
    cases n with
    | zero => exact List.chain'_singleton _
    | succ m =>
      show List.Chain' (· < ·) ((k + 1) :: (k + 2) :: natsFrom (k + 2) m)
      rw [List.chain'_cons]
      exact ⟨by omega, ih (k + 1)⟩

theorem runCommands_closed (argss : List (List Val)) :
    ∀ s : State, s.socketOpen = false →
    (runCommands s argss).1.queue = s.queue ++ builtReqs s.requestId argss ∧
    (runCommands s argss).1.requests = s.requests ∧
    (runCommands s argss).1.written = s.written ∧
    (runCommands s argss).1.socketOpen = false ∧
    (runCommands s argss).1.observersMap = s.observersMap ∧
    (runCommands s argss).1.outcomes = s.outcomes := by
  induction argss with
  | nil => intro s h; exact ⟨by simp [runCommands, builtReqs], rfl, rfl, h, rfl, rfl⟩
  | cons a rest ih =>
    intro s h
    have hc := command_closed s a h
    obtain ⟨k1, k2, k3, k4, k5, k6⟩ := ih (command s a).1 (by rw [hc]; exact h)
    refine ⟨?_, ?_, ?_, k4, ?_, ?_⟩
    · show (runCommands (command s a).1 rest).1.queue = s.queue ++ builtReqs s.requestId (a :: rest)
      rw [k1, hc]
      show (s.queue ++ [mkRequest (s.requestId + 1) a]) ++ builtReqs (s.requestId + 1) rest =
        s.queue ++ builtReqs s.requestId (a :: rest)
      rw [List.append_assoc]
      rfl
    · show (runCommands (command s a).1 rest).1.requests = s.requests
      rw [k2, hc]
    · show (runCommands (command s a).1 rest).1.written = s.written
      rw [k3, hc]
    · show (runCommands (command s a).1 rest).1.observersMap = s.observersMap
      rw [k5, hc]
    · show (runCommands (command s a).1 rest).1.outcomes = s.outcomes
      rw [k6, hc]

/-! The `ready` replay, spelled out for a session with no observers. -/

theorem ready_spec (s : State) (hobs : s.observersMap = []) (hinv : IdInv s) :
    (ready s).written = s.written ++ s.requests.map (fun kv => kv.2.message) ++
      s.queue.map (fun r => r.message) ∧
    (ready s).queue = [] ∧
    (∀ r ∈ s.queue, jsMapGet (ready s).requests r.id = some r) := by
  simp only [ready, hobs, List.foldl_nil]
  have h2 := foldl_write_mem s.requests s (pending_get_of_IdInv hinv)
  rw [h2]
  have hnd : (s.requests.map (fun p => p.1) ++ s.queue.map (fun r => r.id)).Nodup := by
    have := hinv.1
    simpa [inflightIds] using this
  obtain ⟨j1, j2, j3, j4, j5, j6, j7, j8, j9, j10⟩ :=
    foldl_write_queue s.queue
      { s with written := s.written ++ s.requests.map (fun kv => kv.2.message) } hnd
  refine ⟨j2, ?_, j10⟩
  trivial

/-! Reply dispatch, spelled out for a matching success reply. -/

theorem handle_success_reply (s : State) (rid : Nat) (req : Request) (d : Val)
    (hget : jsMapGet s.requests rid = some req) :
    handle s { event := none, name := none, data := d, request_id := some rid,
               error := some "success" } =
      { s with requests := jsMapDelete s.requests rid,
               outcomes := s.outcomes ++ [(rid, Outcome.resolved d)] } := by
  simp [handle, truthy, hget]

/-! Parsing a chunk: failure of any line poisons the whole chunk. -/

theorem parseAll_isOk_false (parse : String → Except String InMsg) :
    ∀ (L : List String) (l : String), l ∈ L → (parse (trimStr l)).isOk = false →
    (parseAll parse L).isOk = false := by
  intro L
  induction L with
  | nil => intro l hl; simp at hl
  | cons l0 rest ih =>
    intro l hl hbad
    rcases List.mem_cons.mp hl with rfl | hl1
    · cases hp : parse (trimStr l) with
      | error e => simp [parseAll, hp, Except.isOk, Except.toBool]
      | ok m => rw [hp] at hbad; simp [Except.isOk, Except.toBool] at hbad
    · cases hp : parse (trimStr l0) with
      | error e => simp [parseAll, hp, Except.isOk, Except.toBool]
      | ok m =>
        have := ih l hl1 hbad
        cases hr : parseAll parse rest with
        | error e => simp [parseAll, hp, hr, Except.isOk, Except.toBool]
        | ok ms => rw [hr] at this; simp [Except.isOk, Except.toBool] at this

theorem parseAll_ok_of_all (parse : String → Except String InMsg) :
    ∀ L : List String, (∀ l ∈ L, (parse (trimStr l)).isOk = true) →
    ∃ ms, parseAll parse L = Except.ok ms := by
  intro L
  induction L with
  | nil => intro _; exact ⟨[], rfl⟩
  | cons l0 rest ih =>
    intro h
    obtain ⟨ms, hms⟩ := ih (fun l hl => h l (List.mem_cons_of_mem _ hl))
    have h0 := h l0 (List.mem_cons_self _ _)
    cases hp : parse (trimStr l0) with
    | error e => rw [hp] at h0; simp [Except.isOk, Except.toBool] at h0
    | ok m => exact ⟨m :: ms, by simp [parseAll, hp, hms]⟩

/-! List lemmas for the argument-store model. -/

theorem listSet_getD_ne {α : Type} (d : α) :
    ∀ (l : List α) (i j : Nat) (a : α), i ≠ j → (l.set i a).getD j d = l.getD j d := by
  intro l
  induction l with
  | nil => intro i j a _; simp [List.set]
  | cons x t ih =>
    intro i j a hij
    cases i with
    | zero =>
      cases j with
      | zero => exact absurd rfl hij
      | succ j1 => simp [List.set, List.getD]
    | succ i1 =>
      cases j with
      | zero => simp [List.set, List.getD]
      | succ j1 =>
        simp only [List.set, List.getD_cons_succ]
        exact ih i1 j1 a (fun e => hij (by rw [e]))

theorem listSet_getD_self {α : Type} (d : α) :
    ∀ (l : List α) (i : Nat) (a : α), i < l.length → (l.set i a).getD i d = a := by
  intro l
  induction l with
  | nil => intro i a h; simp at h
  | cons x t ih =>
    intro i a h
    cases i with
    | zero => simp [List.set, List.getD]
    | succ i1 =>
      simp only [List.set, List.getD_cons_succ]
      exact ih i1 a (by simpa using h)

theorem listGetD_append_lt {α : Type} (d : α) :
    ∀ (l1 l2 : List α) (n : Nat), n < l1.length → (l1 ++ l2).getD n d = l1.getD n d := by
  intro l1
  induction l1 with
  | nil => intro l2 n h; simp at h
  | cons x t ih =>
    intro l2 n h
    cases n with
    | zero => simp [List.getD]
    | succ n1 =>
      simp only [List.cons_append, List.getD_cons_succ]
      exact ih l2 n1 (by simpa using h)

theorem listGetD_append_len {α : Type} (d : α) :
    ∀ (l1 : List α) (v : α), (l1 ++ [v]).getD l1.length d = v := by
  intro l1
  induction l1 with
  | nil => intro v; rfl
  | cons x t ih => intro v; simp only [List.cons_append, List.length_cons, List.getD_cons_succ]; exact ih v

/-! ## Claim C1 -/

/-- C1, counterexample.  On reconnect-ready with one in-flight pending
request (id 1, already written before the disconnect) and one queued request
(id 2), `ready` writes BOTH messages — the pending request is re-sent, so the
replay does not consist of the Outbound Queue entries alone. -/
theorem ready_resends_inflight_cex :
    (ready c1s0).written = [c1r1.message, c1r2.message] ∧
    (ready c1s0).written ≠ [c1r2.message] ∧
    c1r1.message ∈ (ready c1s0).written := by
  refine ⟨rfl, by decide, by decide⟩

/-- C1, amended: on reconnect-ready (shown here for a session with no
observers, whose re-subscription commands would otherwise precede), `ready`
first re-writes every already-in-flight pending request (in pending-map
insertion order) and only then writes every Outbound Queue entry in insertion
order, moving each queued entry into the pending-request map, and finally
clears the queue. -/
theorem ready_replays_pending_then_queue (s : State) (hobs : s.observersMap = [])
    (hinv : IdInv s) :
    (ready s).written = s.written ++ s.requests.map (fun kv => kv.2.message) ++
      s.queue.map (fun r => r.message) ∧
    (ready s).queue = [] ∧
    (∀ r ∈ s.queue, jsMapGet (ready s).requests r.id = some r) :=
  ready_spec s hobs hinv

/-- C1, witness for the amended theorem at the concrete reconnect state. -/
theorem ready_replays_pending_then_queue_witness :
    c1s0.observersMap = [] ∧ IdInv c1s0 ∧
    (ready c1s0).written = c1s0.written ++ c1s0.requests.map (fun kv => kv.2.message) ++
      c1s0.queue.map (fun r => r.message) :=
  ⟨rfl, ⟨by decide, by decide, by decide⟩,
    (ready_replays_pending_then_queue c1s0 rfl ⟨by decide, by decide, by decide⟩).1⟩

/-! ## Claim C2 -/

/-- C2, counterexample.  A session holds one pending request (id 1) and a
live subprocess; `end()` kills the subprocess but rejects nothing: the
promise-outcome trace stays empty and the request is still in the pending
map, permanently unresolved. -/
theorem end_leaves_pending_unrejected_cex :
    (endFn c2s0).outcomes = [] ∧
    jsMapGet (endFn c2s0).requests 1 = some c2req ∧
    (endFn c2s0).processHandle =
      some { killed := true, listenersRemoved := true, unrefed := true } := by
  refine ⟨rfl, rfl, rfl⟩

/-- C2, amended: `end()` detaches the subprocess's listeners, kills it if one
exists, and unrefs the handle; it does not reject (or resolve) any pending
request — the pending map, the queue and every promise outcome are left
exactly as they were, so pending requests remain unresolved. -/
theorem end_preserves_requests (s : State) :
    (endFn s).requests = s.requests ∧ (endFn s).outcomes = s.outcomes ∧
    (endFn s).queue = s.queue ∧ (endFn s).written = s.written ∧
    (endFn s).processHandle = s.processHandle.map
      (fun p => { p with killed := true, listenersRemoved := true, unrefed := true }) := by
  cases hp : s.processHandle with
  | none => simp [endFn, hp]
  | some p => simp [endFn, hp]

/-! ## Claim C3 -/

/-- C3: the code refutes the claim (code bug).  The close handler installed
after a successful start runs `mpv.status = MPV_STATUS.STARTED` and then
`start(true)`; `start` opens with `if (mpv.status !== "stopped") return;`, so
with status `started` it returns at once: the Boolean flag reporting that the
guard was passed is `false` for every state, the session state is unchanged
apart from the status write, and in particular no respawn (and hence no
`restarted` or `error` notification from a respawn) can occur.  The second
conjunct shows the guard itself is the only obstacle: from `stopped` the same
call would have proceeded. -/
theorem close_handler_never_restarts (s : State) :
    onProcessClose s = ({ s with status := MPV_STATUS.STARTED }, false) ∧
    startSync { s with status := MPV_STATUS.stopped } =
      ({ s with status := MPV_STATUS.starting, spawnCount := s.spawnCount + 1 }, true) := by
  constructor
  · simp [onProcessClose, startSync]
  · simp [startSync]

/-! ## Claim C4 -/

/-- C4: the code refutes the claim (code bug).  Two `observe("volume", ...)`
calls racing before the first registration's reply send TWO
`observe_property` commands (request ids 1 and 2, subscription ids 1 and 2):
the second call's `observers.has(x)` check sees nothing because the in-flight
registration was stored with a plain property assignment `observers[x] = ...`
on the `Map` object, which `Map.prototype.has` does not consult; the `Map`
itself is still empty at this point, so no callback is registered either, and
the second property assignment has overwritten the first promise. -/
theorem concurrent_observe_duplicate_subscribe :
    c4s2.written =
      [serializeRequest 1 [Val.str "observe_property", Val.num 1, Val.str "volume"],
       serializeRequest 2 [Val.str "observe_property", Val.num 2, Val.str "volume"]] ∧
    c4s2.observersMap = [] ∧
    c4s2.observersProps = [("volume", 2)] ∧
    c4s2.observeId = 2 := by
  refine ⟨rfl, rfl, by decide, rfl⟩

/-! ## Claim C5 -/

theorem IdInv_runCommands (argss : List (List Val)) :
    ∀ s : State, IdInv s → IdInv (runCommands s argss).1 := by
  induction argss with
  | nil => intro s h; exact h
  | cons a rest ih => intro s h; exact ih _ (IdInv_command s a h)

/-- C5: CONFIRMED.  Every `command` call returns `requestId + 1` and bumps
the counter, so from a fresh session the i-th call is handed id i: the id
list of any call sequence is `1, 2, ..., n` (`natsFrom 0 n`), strictly
increasing, hence never reused; and the id invariant — all in-flight ids
(pending map keys plus queue entries) pairwise distinct and bounded by the
counter — holds initially and is preserved by every session step (`command`,
`ready`, frame dispatch, inbound chunks, socket transitions,
`observe`/`unobserve` and their continuations, `end`), so no two distinct
in-flight requests ever hold the same id. -/
theorem request_ids_sequential_unique :
    (∀ (s : State) (args : List Val), (command s args).2 = s.requestId + 1 ∧
      (command s args).1.requestId = s.requestId + 1) ∧
    (∀ argss : List (List Val),
      (runCommands initialState argss).2 = natsFrom 0 argss.length) ∧
    (∀ argss : List (List Val),
      List.Chain' (· < ·) (runCommands initialState argss).2) ∧
    IdInv initialState ∧
    (∀ (s : State) (step : Step), IdInv s → IdInv (applyStep s step)) ∧
    (∀ steps : List Step, IdInv (runSteps initialState steps)) := by
  refine ⟨?_, ?_, ?_, IdInv_initialState, ?_, ?_⟩
  · intro s args
    exact ⟨command_snd s args, (command_fields s args).1⟩
  · intro argss
    exact (runCommands_ids argss initialState).1
  · intro argss
    rw [(runCommands_ids argss initialState).1]
    exact natsFrom_chain _ _
  · intro s step h
    exact IdInv_step s step h
  · intro steps
    exact IdInv_runSteps steps initialState IdInv_initialState

/-- C5, witness: the invariant-preservation conjunct applied at the initial
state and a concrete `command` step. -/
theorem request_ids_sequential_unique_witness :
    IdInv initialState ∧
    IdInv (applyStep initialState (Step.cmd [Val.str "loadfile", Val.str "a.mp4"])) :=
  ⟨IdInv_initialState,
    request_ids_sequential_unique.2.2.2.2.1 initialState
      (Step.cmd [Val.str "loadfile", Val.str "a.mp4"]) IdInv_initialState⟩

/-! ## Claim C6 -/

/-- C6: CONFIRMED.  Commands issued while the socket is not open are appended
to the Outbound Queue in issuance order (`builtReqs` lists them, ids
continuing from the current counter); once the connection becomes ready,
`ready` writes them in exactly that FIFO order (for a session that started
with empty pending map, empty queue and no observers, the write trace is
precisely the queued messages in issuance order, and each queued request
lands in the pending map); and a reply is matched by id: a success reply for
a pending id removes exactly that entry and resolves its promise with the
reply's data. -/
theorem queued_commands_fifo_and_matched (s : State) (argss : List (List Val))
    (hso : s.socketOpen = false) (hobs : s.observersMap = []) (hreq : s.requests = [])
    (hq : s.queue = []) (hinv : IdInv s) :
    (runCommands s argss).1.queue = builtReqs s.requestId argss ∧
    (ready { (runCommands s argss).1 with socketOpen := true }).written =
      s.written ++ (builtReqs s.requestId argss).map (fun r => r.message) ∧
    (ready { (runCommands s argss).1 with socketOpen := true }).queue = [] ∧
    (∀ r ∈ (runCommands s argss).1.queue,
      jsMapGet (ready { (runCommands s argss).1 with socketOpen := true }).requests r.id
        = some r) ∧
    (∀ (s2 : State) (rid : Nat) (req : Request) (d : Val),
      jsMapGet s2.requests rid = some req →
      handle s2 { event := none, name := none, data := d, request_id := some rid,
                  error := some "success" } =
        { s2 with requests := jsMapDelete s2.requests rid,
                  outcomes := s2.outcomes ++ [(rid, Outcome.resolved d)] }) := by
  obtain ⟨k1, k2, k3, k4, k5, k6⟩ := runCommands_closed argss s hso
  have hq1 : (runCommands s argss).1.queue = builtReqs s.requestId argss := by
    rw [k1, hq]
    rfl
  have hinv1 : IdInv { (runCommands s argss).1 with socketOpen := true } := by
    have h2 := IdInv_runCommands argss s hinv
    exact ⟨h2.1, h2.2.1, h2.2.2⟩
  have hobs1 : ({ (runCommands s argss).1 with socketOpen := true }).observersMap = [] := by
    show (runCommands s argss).1.observersMap = []
    rw [k5, hobs]
  obtain ⟨w1, w2, w3⟩ := ready_spec _ hobs1 hinv1
  refine ⟨hq1, ?_, w2, ?_, ?_⟩
  · rw [w1]
    show (runCommands s argss).1.written ++
        (runCommands s argss).1.requests.map (fun kv => kv.2.message) ++
        (runCommands s argss).1.queue.map (fun r => r.message) =
      s.written ++ (builtReqs s.requestId argss).map (fun r => r.message)
    rw [k2, k3, hq1, hreq]
    simp
  · intro r hr
    exact w3 r hr
  · intro s2 rid req d hget
    exact handle_success_reply s2 rid req d hget

/-- C6, witness: two commands issued on a closed socket, then the connection
becomes ready — the write trace is exactly the two queued messages in
issuance order. -/
theorem queued_commands_fifo_and_matched_witness :
    initialState.socketOpen = false ∧ initialState.observersMap = [] ∧
    initialState.requests = [] ∧ initialState.queue = [] ∧ IdInv initialState ∧
    (ready { (runCommands initialState [[Val.str "get_property", Val.str "volume"], [Val.str "loadfile", Val.str "u"]]).1 with socketOpen := true }).written =
      initialState.written ++
        (builtReqs initialState.requestId [[Val.str "get_property", Val.str "volume"], [Val.str "loadfile", Val.str "u"]]).map (fun r => r.message) :=
  ⟨rfl, rfl, rfl, rfl, IdInv_initialState,
    (queued_commands_fifo_and_matched initialState
      [[Val.str "get_property", Val.str "volume"], [Val.str "loadfile", Val.str "u"]]
      rfl rfl rfl rfl IdInv_initialState).2.1⟩

/-! ## Claim C7 -/

/-- C7, counterexample.  A chunk whose second line is malformed: `data`
throws (the `SyntaxError` escapes) and NO line of the chunk is dispatched —
in particular the well-formed line after the malformed one is not handled,
contradicting per-line isolation.  For contrast, the same two well-formed
lines without the malformed one are both dispatched. -/
theorem data_aborts_chunk_on_bad_line_cex :
    dataFn demoParse initialState "A\nnot json\nB" =
      Except.error "SyntaxError: Unexpected token" ∧
    dataFn demoParse initialState "A\nB" =
      Except.ok { initialState with emitted := [("tick", ""), ("pause", "")] } := by
  constructor
  · rfl
  · rfl

/-- C7, amended: `data` has no per-line error isolation.  If any non-empty
segment of the chunk fails to parse, the whole `data` call throws and no
segment of that chunk (not even ones before the malformed line) is
dispatched; only when every segment parses is each parsed frame dispatched in
order. -/
theorem data_malformed_line_aborts (parse : String → Except String InMsg) (s : State)
    (chunk : String) :
    ((∃ l ∈ cleanSegs chunk, (parse (trimStr l)).isOk = false) →
      (dataFn parse s chunk).isOk = false) ∧
    ((∀ l ∈ cleanSegs chunk, (parse (trimStr l)).isOk = true) →
      ∃ ms, parseAll parse (cleanSegs chunk) = Except.ok ms ∧
        dataFn parse s chunk = Except.ok (ms.foldl handle s)) := by
  constructor
  · rintro ⟨l, hl, hbad⟩
    have hall := parseAll_isOk_false parse (cleanSegs chunk) l hl hbad
    unfold dataFn
    cases hp : parseAll parse (cleanSegs chunk) with
    | error e => simp [Except.isOk, Except.toBool]
    | ok ms => rw [hp] at hall; simp [Except.isOk, Except.toBool] at hall
  · intro hall
    obtain ⟨ms, hms⟩ := parseAll_ok_of_all parse (cleanSegs chunk) hall
    refine ⟨ms, hms, ?_⟩
    unfold dataFn
    rw [hms]

/-- C7, witness for the amended theorem: the concrete malformed chunk. -/
theorem data_malformed_line_aborts_witness :
    ("not json" ∈ cleanSegs "A\nnot json\nB") ∧
    (demoParse (trimStr "not json")).isOk = false ∧
    (dataFn demoParse initialState "A\nnot json\nB").isOk = false :=
  ⟨by decide, by decide,
    (data_malformed_line_aborts demoParse initialState "A\nnot json\nB").1
      ⟨"not json", by decide, by decide⟩⟩

/-! ## Claim C8 -/

/-- C8: CONFIRMED.  `connect`'s default timeout is 5000 ms; a close at
elapsed time `t ≤ timeout` never settles the promise by itself — it schedules
a reconnect after the fixed 20 ms delay and continues with the stored last
error; as long as every failure happens within the timeout the promise is
never rejected; and a close at `t > timeout` rejects immediately with the
last observed connection error, or with the generic `"Timed out"` error when
none was ever observed. -/
theorem connect_retry_and_timeout :
    connectDefaultTimeoutMs = 5000 ∧
    connectRetryDelayMs = 20 ∧
    (∀ (timeout : Nat) (le : Option String) (err : Option String) (t : Nat)
        (rest : List Attempt), t ≤ timeout →
      (connectLoop timeout le (Attempt.failAt err t :: rest)).1 =
        (connectLoop timeout (lastErrOf err le) rest).1 ∧
      (connectLoop timeout le (Attempt.failAt err t :: rest)).2 =
        connectRetryDelayMs :: (connectLoop timeout (lastErrOf err le) rest).2) ∧
    (∀ (timeout : Nat) (le : Option String) (attempts : List Attempt),
      (∀ err t, Attempt.failAt err t ∈ attempts → t ≤ timeout) →
      ∀ e, (connectLoop timeout le attempts).1 ≠ some (ConnectResult.rejected e)) ∧
    (∀ (timeout : Nat) (le : Option String) (e : String) (t : Nat) (rest : List Attempt),
      t > timeout →
      connectLoop timeout le (Attempt.failAt (some e) t :: rest) =
        (some (ConnectResult.rejected e), [])) ∧
    (∀ (timeout t : Nat) (rest : List Attempt), t > timeout →
      connectLoop timeout none (Attempt.failAt none t :: rest) =
        (some (ConnectResult.rejected "Timed out"), [])) := by
  refine ⟨rfl, rfl, ?_, ?_, ?_, ?_⟩
  · intro timeout le err t rest ht
    have hn : ¬ t > timeout := by omega
    constructor <;> simp [connectLoop, hn]
  · intro timeout le attempts
    induction attempts generalizing le with
    | nil => intro _ e; simp [connectLoop]
    | cons a rest ih =>
      intro hall e
      cases a with
      | succeed => simp [connectLoop]
      | failAt err t =>
        have ht : t ≤ timeout := hall err t (List.mem_cons_self _ _)
        have hn : ¬ t > timeout := by omega
        simp only [connectLoop, hn, if_false]
        exact ih (lastErrOf err le)
          (fun err2 t2 hm => hall err2 t2 (List.mem_cons_of_mem _ hm)) e
  · intro timeout le e t rest ht
    simp [connectLoop, ht, lastErrOf]
  · intro timeout t rest ht
    simp [connectLoop, ht, lastErrOf]

/-- C8, witness: a failed attempt closing after 5001 ms with a stored
connection error rejects with exactly that error. -/
theorem connect_retry_and_timeout_witness :
    5001 > 5000 ∧
    connectLoop 5000 none [Attempt.failAt (some "ECONNREFUSED") 5001] =
      (some (ConnectResult.rejected "ECONNREFUSED"), []) :=
  ⟨by decide,
    connect_retry_and_timeout.2.2.2.2.1 5000 none "ECONNREFUSED" 5001 [] (by decide)⟩

/-! ## Claim C9 -/

/-- C9, counterexample.  With a single subscriber on `"volume"`, the first
`unsubscribe()` succeeds (emptying the set deletes the entry and issues the
unsubscribe command); the second call finds `observers.get(x)` undefined and
throws a `TypeError` instead of being a no-op — the returned unsubscribe
function is not idempotent. -/
theorem unsubscribe_not_idempotent_cex :
    (unobserve c9s0 "volume" 7).isOk = true ∧
    ((unobserve c9s0 "volume" 7).bind (fun s1 => unobserve s1 "volume" 7)) =
      Except.error "TypeError: Cannot read properties of undefined (reading fns)" := by
  constructor
  · rfl
  · rfl

/-- C9, amended: `unsubscribe()` is idempotent only while the entry survives,
i.e. while other subscribers remain after the removal: in that case a second
call returns successfully and leaves the whole session state — in particular
the observation registry — exactly as the first call left it.  (When the
first call emptied the subscriber set, the entry is deleted and a repeated
call throws, as the counterexample shows.) -/
theorem unobserve_idempotent_while_subscribers_remain (s : State) (x : String) (fn : Nat)
    (entry : Entry) (hget : jsMapGet s.observersMap x = some entry)
    (hnd : entry.fns.Nodup) (hne : (entry.fns.erase fn).isEmpty = false) :
    ∃ s1, unobserve s x fn = Except.ok s1 ∧ unobserve s1 x fn = Except.ok s1 := by
  refine ⟨{ s with observersMap := jsMapSet s.observersMap x { entry with fns := entry.fns.erase fn } }, ?_, ?_⟩
  · simp [unobserve, hget, hne]
  · have hget1 : jsMapGet (jsMapSet s.observersMap x { entry with fns := entry.fns.erase fn }) x = some { entry with fns := entry.fns.erase fn } :=
      jsMapGet_set_self _ _ _
    have hmem : fn ∉ entry.fns.erase fn := hnd.not_mem_erase
    have herase : (entry.fns.erase fn).erase fn = entry.fns.erase fn :=
      List.erase_of_not_mem hmem
    simp only [unobserve, hget1, herase, hne]
    rw [jsMapSet_set_same, if_neg Bool.false_ne_true]

/-- C9, witness for the amended theorem: two subscribers (tokens 7 and 8) on
`"volume"`; unsubscribing token 7 twice succeeds and is idempotent. -/
theorem unobserve_idempotent_witness :
    jsMapGet c9s2.observersMap "volume" = some { id := 1, fns := [7, 8] } ∧
    (({ id := 1, fns := [7, 8] } : Entry).fns.Nodup) ∧
    ((({ id := 1, fns := [7, 8] } : Entry).fns.erase 7).isEmpty = false) ∧
    (∃ s1, unobserve c9s2 "volume" 7 = Except.ok s1 ∧
      unobserve s1 "volume" 7 = Except.ok s1) :=
  ⟨rfl, by decide, by decide,
    unobserve_idempotent_while_subscribers_remain c9s2 "volume" 7 _ rfl (by decide) (by decide)⟩

/-! ## Claim C10 -/

theorem getArr_pushArr_ne (st : Store) (r c : Nat) (x : String) (h : c ≠ r) :
    getArr (pushArr st r x) c = getArr st c := by
  simp only [pushArr, setArr, getArr]
  exact listSet_getD_ne [] st.arrays r c _ (fun e => h e.symm)

theorem pushArr_length (st : Store) (r : Nat) (x : String) :
    (pushArr st r x).arrays.length = st.arrays.length := by
  simp [pushArr, setArr]

theorem getArr_pushArr_self (st : Store) (r : Nat) (x : String)
    (h : r < st.arrays.length) : getArr (pushArr st r x) r = getArr st r ++ [x] := by
  simp only [pushArr, setArr, getArr]
  exact listSet_getD_self [] st.arrays r _ h

theorem mergeFold_other (ds : List String) :
    ∀ (acc : Store) (r c : Nat), c ≠ r →
    getArr (ds.foldl (fun a x =>
      if (getArr a r).any (fun y => strStartsWith y (argKey x)) then a
      else pushArr a r x) acc) c = getArr acc c := by
  induction ds with
  | nil => intro acc r c _; rfl
  | cons d rest ih =>
    intro acc r c h
    rw [List.foldl_cons]
    by_cases hc : (getArr acc r).any (fun y => strStartsWith y (argKey d)) = true
    · rw [if_pos hc]
      exact ih acc r c h
    · rw [if_neg hc]
      rw [ih _ r c h, getArr_pushArr_ne acc r c d h]

theorem mergeFold_self (ds : List String) :
    ∀ (acc : Store) (r : Nat), r < acc.arrays.length →
    (∃ extra, getArr (ds.foldl (fun a x =>
        if (getArr a r).any (fun y => strStartsWith y (argKey x)) then a
        else pushArr a r x) acc) r = getArr acc r ++ extra) ∧
    (ds.foldl (fun a x =>
        if (getArr a r).any (fun y => strStartsWith y (argKey x)) then a
        else pushArr a r x) acc).arrays.length = acc.arrays.length := by
  induction ds with
  | nil => intro acc r _; exact ⟨⟨[], by simp⟩, rfl⟩
  | cons d rest ih =>
    intro acc r hr
    rw [List.foldl_cons]
    by_cases hc : (getArr acc r).any (fun y => strStartsWith y (argKey d)) = true
    · rw [if_pos hc]
      exact ih acc r hr
    · rw [if_neg hc]
      have hr2 : r < (pushArr acc r d).arrays.length := by
        rw [pushArr_length]
        exact hr
      obtain ⟨⟨extra, hx⟩, hlen⟩ := ih (pushArr acc r d) r hr2
      refine ⟨⟨d :: extra, ?_⟩, by rw [hlen, pushArr_length]⟩
      rw [hx, getArr_pushArr_self acc r d hr]
      simp [List.append_assoc]

/-- C10: CONFIRMED.  The argument-merging prefix of `Mpv` copies the
caller-supplied args array (`args = (args || []).slice(0)`) before pushing
the generated `--input-ipc-server` endpoint and the other defaults: after the
merge, the caller's array still holds exactly its original elements in the
original order, and the merged array is the caller's elements followed by
whatever defaults were appended. -/
theorem mpv_args_caller_array_unchanged (st : Store) (callerRef : Nat) (suffix : String)
    (h : callerRef < st.arrays.length) :
    getArr (mergeArgs st callerRef suffix).1 callerRef = getArr st callerRef ∧
    (∃ extra, getArr (mergeArgs st callerRef suffix).1 (mergeArgs st callerRef suffix).2 =
      getArr st callerRef ++ extra) := by
  have hne : callerRef ≠ (allocArr st (getArr st callerRef)).2 := by
    simp only [allocArr]
    omega
  simp only [mergeArgs]
  constructor
  · rw [mergeFold_other (defaultsFor suffix) _ _ _ hne]
    simp only [allocArr, getArr]
    exact listGetD_append_lt [] st.arrays _ callerRef h
  · have hlt : (allocArr st (getArr st callerRef)).2 <
        (allocArr st (getArr st callerRef)).1.arrays.length := by
      simp [allocArr]
    obtain ⟨⟨extra, hx⟩, _⟩ := mergeFold_self (defaultsFor suffix)
      (allocArr st (getArr st callerRef)).1 (allocArr st (getArr st callerRef)).2 hlt
    refine ⟨extra, ?_⟩
    rw [hx]
    have hbase : getArr (allocArr st (getArr st callerRef)).1
        (allocArr st (getArr st callerRef)).2 = getArr st callerRef := by
      simp only [allocArr, getArr]
      exact listGetD_append_len [] st.arrays (getArr st callerRef)
    rw [hbase]

/-- C10, witness at a concrete one-array store. -/
theorem mpv_args_caller_array_unchanged_witness :
    0 < (Store.mk [["--no-config"]]).arrays.length ∧
    getArr (mergeArgs (Store.mk [["--no-config"]]) 0 "abc").1 0 =
      getArr (Store.mk [["--no-config"]]) 0 :=
  ⟨by decide, (mpv_args_caller_array_unchanged (Store.mk [["--no-config"]]) 0 "abc" (by decide)).1⟩

end MpvModel
